import Mathlib

/-!
Verification of the cell-matrix terminal display engine
(`io-fault/terminal`), embedded shallowly from the C sources.

Conventions of the embedding:
* C unsigned integers become `Nat` with explicit `% 2^w` at the points
  where the C performs a narrowing conversion or where unsigned
  wrap-around can occur; C signed integers become `Int`.
* C signed division (`ssize_t`) truncates toward zero and is rendered
  as `Int.tdiv`.
* Buffers of `struct Cell` become `List Cell`; pointer arithmetic
  becomes index arithmetic (`line * stride + offset`).  Out-of-range
  accesses, which are undefined behaviour in the C, are totalized with
  `List.getD`/`List.set` (reads default, writes drop); theorems carry
  the in-range hypotheses under which the C is defined.
* Stateful functions take and return the state explicitly.
-/

/-- 2^16, the modulus of C `unsigned short` arithmetic. -/
def u16 : Nat := 65536

/-- 2^32, the modulus of C `unsigned int` arithmetic. -/
def u32 : Nat := 4294967296

/-- C `unsigned short` subtraction `a - b` (wraps modulo 2^16).
Matches the C for any `a` and any `b < 2^16`. -/
def u16sub (a b : Nat) : Nat := (a + u16 - b % u16) % u16

/-- `struct CellArea` (screen.h): four `unsigned short` fields.
Fields are `Nat`; theorems that depend on the 16-bit width carry
explicit `< 65536` bounds. -/
structure CellArea where
  top_offset : Nat
  left_offset : Nat
  lines : Nat
  span : Nat
deriving DecidableEq

instance : Inhabited CellArea := ⟨⟨0, 0, 0, 0⟩⟩

/-- `aintersection` (screen.h lines 89-105).  `ylimit`/`xlimit` are
`unsigned int`; the subtractions `ylimit - latter.top_offset` and
`xlimit - latter.left_offset` are unsigned-int subtractions and wrap
modulo 2^32 when `latter`'s offset exceeds the limit.  The final
stores into the `unsigned short` fields do not truncate for 16-bit
inputs because each stored value is bounded by a 16-bit input. -/
def aintersection (bounds latter : CellArea) : CellArea :=
  let ylimit := bounds.top_offset + bounds.lines
  let xlimit := bounds.left_offset + bounds.span
  let ymax := max bounds.top_offset latter.top_offset
  let xmax := max bounds.left_offset latter.left_offset
  let y := min ylimit ymax
  let x := min xlimit xmax
  { top_offset := y, left_offset := x,
    lines := min ((ylimit + u32 - latter.top_offset % u32) % u32) latter.lines,
    span := min ((xlimit + u32 - latter.left_offset % u32) % u32) latter.span }

/-- `area_move` (module.c lines 128-145): copies the receiver and adds
the two C `int` displacements into the `unsigned short` offsets, which
reduces the sums modulo 2^16.  The receiver itself is not modified
(the C mutates a fresh `area_copy`). -/
def area_move (a : CellArea) (v h : Int) : CellArea :=
  { a with
    top_offset := (((a.top_offset : Int) + v) % (u16 : Int)).toNat,
    left_offset := (((a.left_offset : Int) + h) % (u16 : Int)).toNat }

/-- `area_resize` (module.c lines 147-164): copies the receiver and adds
the two C `int` deltas into the `unsigned short` extents modulo 2^16. -/
def area_resize (a : CellArea) (dl ds : Int) : CellArea :=
  { a with
    lines := (((a.lines : Int) + dl) % (u16 : Int)).toNat,
    span := (((a.span : Int) + ds) % (u16 : Int)).toNat }

/-- Rectangle containment in absolute cell coordinates. -/
def areaContains (w a : CellArea) : Prop :=
  w.top_offset ≤ a.top_offset ∧
  a.top_offset + a.lines ≤ w.top_offset + w.lines ∧
  w.left_offset ≤ a.left_offset ∧
  a.left_offset + a.span ≤ w.left_offset + w.span

instance (w a : CellArea) : Decidable (areaContains w a) := by
  unfold areaContains; infer_instance

/-- Unsigned-int subtraction under the no-wrap condition. -/
theorem u32sub_no_wrap (x y : Nat) (h : y ≤ x) (hx : x < u32) :
    (x + u32 - y % u32) % u32 = x - y := by
  have hy : y % u32 = y := Nat.mod_eq_of_lt (by omega)
  rw [hy]
  have h1 : x + u32 - y = (x - y) + u32 := by omega
  rw [h1, Nat.add_mod_right]
  exact Nat.mod_eq_of_lt (by omega)

/-- Unsigned-short subtraction under the no-wrap condition. -/
theorem u16sub_no_wrap (x y : Nat) (h : y ≤ x) (hx : x < u16) :
    u16sub x y = x - y := by
  unfold u16sub
  have hy : y % u16 = y := Nat.mod_eq_of_lt (by omega)
  rw [hy]
  have h1 : x + u16 - y = (x - y) + u16 := by omega
  rw [h1, Nat.add_mod_right]
  exact Nat.mod_eq_of_lt (by omega)

/- ### Claim C2 -/

/-- C2 counterexample: the claim requires
`intersect({0,0,5,5}, {6,6,1,1}) = {5,5,0,0}`, but the code's
unsigned subtraction `ylimit - latter.top_offset` wraps, so the
`lines`/`span` minima select `latter`'s extents and the result is
`{5,5,1,1}`. -/
theorem aintersection_oob_scenario :
    aintersection ⟨0, 0, 5, 5⟩ ⟨6, 6, 1, 1⟩ = ⟨5, 5, 1, 1⟩ ∧
    (⟨5, 5, 1, 1⟩ : CellArea) ≠ ⟨5, 5, 0, 0⟩ := by
  constructor
  · decide
  · decide

/-- C2 (amended): for 16-bit areas, `aintersection` returns exactly
`y = min(W.top+W.lines, max(W.top, A.top))`,
`x = min(W.left+W.span, max(W.left, A.left))`,
`lines = min((W.top+W.lines − A.top) mod 2^32, A.lines)` and
`span = min((W.left+W.span − A.left) mod 2^32, A.span)`; whenever
`A.top ≤ W.top+W.lines` (resp. `A.left ≤ W.left+W.span`) the modular
subtraction does not wrap and the claimed mathematical formula
`lines = min(W.top+W.lines − A.top, A.lines)` holds, as in
`intersect({0,0,5,5}, {3,3,10,10}) = {3,3,2,2}`. -/
theorem aintersection_formula (w a : CellArea)
    (ht : a.top_offset < u16) (hl : a.left_offset < u16)
    (hwt : w.top_offset < u16) (hwl : w.left_offset < u16)
    (hwlines : w.lines < u16) (hwspan : w.span < u16) :
    aintersection w a =
      { top_offset := min (w.top_offset + w.lines) (max w.top_offset a.top_offset),
        left_offset := min (w.left_offset + w.span) (max w.left_offset a.left_offset),
        lines := min ((w.top_offset + w.lines + u32 - a.top_offset) % u32) a.lines,
        span := min ((w.left_offset + w.span + u32 - a.left_offset) % u32) a.span } ∧
    (a.top_offset ≤ w.top_offset + w.lines →
      (aintersection w a).lines = min (w.top_offset + w.lines - a.top_offset) a.lines) ∧
    (a.left_offset ≤ w.left_offset + w.span →
      (aintersection w a).span = min (w.left_offset + w.span - a.left_offset) a.span) := by
  have hu : u16 ≤ u32 := by decide
  have ht32 : a.top_offset % u32 = a.top_offset := Nat.mod_eq_of_lt (by omega)
  have hl32 : a.left_offset % u32 = a.left_offset := Nat.mod_eq_of_lt (by omega)
  refine ⟨?_, ?_, ?_⟩
  · unfold aintersection
    simp only [ht32, hl32]
  · intro h
    unfold aintersection
    simp only
    congr 1
    exact u32sub_no_wrap _ _ h (by unfold u16 u32 at *; omega)
  · intro h
    unfold aintersection
    simp only
    congr 1
    exact u32sub_no_wrap _ _ h (by unfold u16 u32 at *; omega)

/-- C2 witness: the amended formula evaluated at the in-range scenario
`intersect({0,0,5,5}, {3,3,10,10}) = {3,3,2,2}`. -/
theorem aintersection_formula_witness :
    aintersection ⟨0, 0, 5, 5⟩ ⟨3, 3, 10, 10⟩ = ⟨3, 3, 2, 2⟩ ∧
    (aintersection ⟨0, 0, 5, 5⟩ ⟨3, 3, 10, 10⟩).lines = min (0 + 5 - 3) 10 := by
  have h := aintersection_formula ⟨0, 0, 5, 5⟩ ⟨3, 3, 10, 10⟩
    (by decide) (by decide) (by decide) (by decide) (by decide) (by decide)
  refine ⟨by decide, h.2.1 (by decide)⟩

/- ### Claim C4 -/

/-- C10: `Area.move` and `Area.resize` return a fresh area whose
updated fields are congruent to the old field plus the signed
displacement modulo 2^16 (wrapping, not clamping, for negative
arguments) and lie in `[0, 2^16)`, while the respective other two
fields are untouched.  The receiver is not mutated: both operations
act on `area_copy` of the receiver, which in this pure embedding is
expressed by their being functions of the input value. -/
theorem area_move_resize_wrap (a : CellArea) (v h dl ds : Int) :
    ((area_move a v h).top_offset : Int) ≡ (a.top_offset : Int) + v [ZMOD (u16 : Int)] ∧
    ((area_move a v h).left_offset : Int) ≡ (a.left_offset : Int) + h [ZMOD (u16 : Int)] ∧
    (area_move a v h).top_offset < u16 ∧
    (area_move a v h).left_offset < u16 ∧
    (area_move a v h).lines = a.lines ∧
    (area_move a v h).span = a.span ∧
    ((area_resize a dl ds).lines : Int) ≡ (a.lines : Int) + dl [ZMOD (u16 : Int)] ∧
    ((area_resize a dl ds).span : Int) ≡ (a.span : Int) + ds [ZMOD (u16 : Int)] ∧
    (area_resize a dl ds).lines < u16 ∧
    (area_resize a dl ds).span < u16 ∧
    (area_resize a dl ds).top_offset = a.top_offset ∧
    (area_resize a dl ds).left_offset = a.left_offset := by
  have hpos : (0 : Int) < (u16 : Int) := by decide
  have hmod : ∀ x : Int, ((x % (u16 : Int)).toNat : Int) ≡ x [ZMOD (u16 : Int)] := by
    intro x
    have hnn : 0 ≤ x % (u16 : Int) := Int.emod_nonneg x (by decide)
    have : ((x % (u16 : Int)).toNat : Int) = x % (u16 : Int) := Int.toNat_of_nonneg hnn
    rw [Int.ModEq, this]
    exact Int.emod_emod_of_dvd x dvd_rfl
  have hlt : ∀ x : Int, (x % (u16 : Int)).toNat < u16 := by
    intro x
    have h1 : x % (u16 : Int) < (u16 : Int) := Int.emod_lt_of_pos x hpos
    omega
  exact ⟨hmod _, hmod _, hlt _, hlt _, rfl, rfl, hmod _, hmod _, hlt _, hlt _, rfl, rfl⟩

/-- C10 witness: moving `{top=5, left=3, lines=2, span=2}` by
`(-7, -7)` wraps both offsets to `65534` (no clamping at zero) and
keeps the extents; resizing by `(-1, +1)` wraps `lines` to `65537 %
2^16`-style arithmetic as well. -/
theorem area_move_resize_wrap_witness :
    area_move ⟨5, 3, 2, 2⟩ (-7) (-7) = ⟨65534, 65532, 2, 2⟩ ∧
    ((area_move ⟨5, 3, 2, 2⟩ (-7) (-7)).top_offset : Int) ≡ 5 + (-7) [ZMOD (u16 : Int)] ∧
    area_resize ⟨5, 3, 2, 2⟩ (-3) 1 = ⟨5, 3, 65535, 3⟩ := by
  refine ⟨by decide, ?_, by decide⟩
  exact (area_move_resize_wrap ⟨5, 3, 2, 2⟩ (-7) (-7) 0 0).1


/- ### Cell and Screen model -/

/-- `struct Color` (screen.h): four 8-bit channels.  The embedding
keeps the logical channels; byte order only matters for casts the
claims do not touch. -/
structure Color where
  b : Nat
  g : Nat
  r : Nat
  a : Nat
deriving DecidableEq

instance : Inhabited Color := ⟨⟨0, 0, 0, 0⟩⟩

/-- `enum LinePattern` (screen.h). -/
inductive LinePattern where
  | lp_void | lp_solid | lp_thick | lp_double
  | lp_dashed | lp_dotted | lp_wavy | lp_sawtooth
deriving DecidableEq

instance : Inhabited LinePattern := ⟨.lp_void⟩

/-- `struct Traits` (screen.h). -/
structure Traits where
  italic : Bool
  bold : Bool
  caps : Bool
  underline : LinePattern
  strikethrough : LinePattern
deriving DecidableEq

instance : Inhabited Traits := ⟨⟨false, false, false, default, default⟩⟩

/-- The `txt` arm of `Cell.c_switch`. -/
structure TextCell where
  t_traits : Traits
  t_glyph : Color
  t_line : Color
deriving DecidableEq

/-- The `img` arm of `Cell.c_switch`. -/
structure ImageCell where
  i_xtile : Nat
  i_ytile : Nat
deriving DecidableEq

/-- The `c_switch` union of `struct Cell`, discriminated by
`c_window == CM_IMAGE_TILE` in the C. -/
inductive CellSwitch where
  | txt (t : TextCell)
  | img (i : ImageCell)
deriving DecidableEq

/-- `struct Cell` (screen.h lines 311-329). -/
structure Cell where
  c_codepoint : Int
  c_cell : Color
  c_window : Nat
  c_switch : CellSwitch
deriving DecidableEq

instance : Inhabited Cell :=
  ⟨⟨-1, default, 0, .txt ⟨default, default, default⟩⟩⟩

/-- A glyph cell carrying only a codepoint, used for concrete
scenarios. -/
def glyphCell (cp : Int) : Cell :=
  { c_codepoint := cp, c_cell := default, c_window := 0,
    c_switch := .txt ⟨default, default, default⟩ }

/-- `struct ScreenObject` essentials (python.h / module.c): the
dimensions and the borrowed cell buffer, flattened row-major with
stride `dimensions.span`. -/
structure Screen where
  dimensions : CellArea
  image : List Cell
deriving DecidableEq

/-- The inner loop of the `mforeach` macro (screen.h lines 331-358):
write the cells `cs` at consecutive buffer offsets starting at `p`. -/
def setRow (p : Nat) (cs : List Cell) (img : List Cell) : List Cell :=
  match cs with
  | [] => img
  | c :: rest => setRow (p + 1) rest (img.set p c)

/-- The `mforeach` macro iterating an area for writing: row `t+i`
receives the `i`-th `span`-sized chunk of `cells` at buffer offset
`(t+i)*stride + l`. -/
def writeRegionAux (stride l span : Nat) : Nat → Nat → List Cell → List Cell → List Cell
  | _, 0, _, img => img
  | t, li + 1, cells, img =>
      writeRegionAux stride l span (t + 1) li (cells.drop span)
        (setRow (t * stride + l) (cells.take span) img)

/-- Region write in terms of a `CellArea`. -/
def writeRegion (stride : Nat) (a : CellArea) (cells img : List Cell) : List Cell :=
  writeRegionAux stride a.left_offset a.span a.top_offset a.lines cells img

/-- The inner loop of `mforeach` for reading: the `n` cells at
consecutive buffer offsets starting at `p`. -/
def readRow (img : List Cell) (p : Nat) : Nat → List Cell
  | 0 => []
  | n + 1 => img.getD p default :: readRow img (p + 1) n

/-- The `mforeach` macro iterating an area for reading, row-major. -/
def readRegionAux (stride l span : Nat) (img : List Cell) : Nat → Nat → List Cell
  | _, 0 => []
  | t, li + 1 => readRow img (t * stride + l) span ++ readRegionAux stride l span img (t + 1) li

/-- Region read in terms of a `CellArea`. -/
def readRegion (stride : Nat) (a : CellArea) (img : List Cell) : List Cell :=
  readRegionAux stride a.left_offset a.span img a.top_offset a.lines

/-- The copy loop of `screen_rewrite` (module.c lines 735-757):
consume cells one by one, writing at `cursor`; after each `span`-th
cell jump the cursor by `lnd` and stop when it passes `edge`. -/
def rewriteLoop (span lnd edge : Nat) : List Cell → Nat → Nat → List Cell → List Cell
  | [], _, _, img => img
  | c :: rest, cursor, offset, img =>
      let img1 := img.set cursor c
      if offset + 1 ≥ span then
        if cursor + 1 + lnd ≥ edge then img1
        else rewriteLoop span lnd edge rest (cursor + 1 + lnd) 0 img1
      else rewriteLoop span lnd edge rest (cursor + 1) (offset + 1) img1

/-- `screen_rewrite` (module.c lines 706-767).  The target area is
translated relative to the screen's dimensions by `unsigned short`
subtraction; `lnd = dimensions.span - target.span` is well defined for
`target.span ≤ dimensions.span` (otherwise the C's size_t wrap makes
the cursor jump undefined; the Nat truncation here totalizes it).
The C returns the target area object; the buffer update is the
semantic content. -/
def screen_rewrite (s : Screen) (target : CellArea) (cells : List Cell) : Screen :=
  let selTop := u16sub target.top_offset s.dimensions.top_offset
  let selLeft := u16sub target.left_offset s.dimensions.left_offset
  let lnd := s.dimensions.span - target.span
  let edge := s.dimensions.span * s.dimensions.lines
  let cursor := s.dimensions.span * selTop + selLeft
  { s with image := rewriteLoop target.span lnd edge cells cursor 0 s.image }

/-- `screen_select` (module.c lines 769-817): intersect the requested
area with the screen's dimensions, translate relative to zero by
`unsigned short` subtraction, and materialize the region row-major. -/
def screen_select (s : Screen) (area : CellArea) : List Cell :=
  let sel0 := aintersection s.dimensions area
  let sel : CellArea :=
    { sel0 with
      top_offset := u16sub sel0.top_offset s.dimensions.top_offset,
      left_offset := u16sub sel0.left_offset s.dimensions.left_offset }
  readRegion s.dimensions.span sel s.image

/-- The area reconciliation performed by `screen_replicate_cells`
(module.c lines 838-857): clip the source to the screen, copy its
extents onto the destination, clip the destination, then take the
element-wise minimum of the two extents.  Returns
`(source, destination)` as actually copied. -/
def replicate_areas (dims destination source : CellArea) : CellArea × CellArea :=
  let src0 := aintersection dims source
  let dst0 : CellArea := { destination with lines := src0.lines, span := src0.span }
  let dst1 := aintersection dims dst0
  let L := min dst1.lines src0.lines
  let S := min dst1.span src0.span
  ({ src0 with lines := L, span := S }, { dst1 with lines := L, span := S })

/-- `screen_replicate_cells` (module.c lines 819-893): reconcile the
areas, read the source region into `tmpbuf`, then write `tmpbuf` over
the destination region. -/
def screen_replicate_cells (s : Screen) (destination source : CellArea) : Screen :=
  let ad := replicate_areas s.dimensions destination source
  let tmpbuf := readRegion s.dimensions.span ad.1 s.image
  { s with image := writeRegion s.dimensions.span ad.2 tmpbuf s.image }

/- ### Region read/write lemmas -/

/-- Row separation: a position inside row `t` precedes every position
of any later row. -/
theorem row_sep (stride l span t i j j2 : Nat)
    (hls : l + span ≤ stride) (hj : j < span) :
    t * stride + (l + j) < (t + 1 + i) * stride + (l + j2) := by
  have h1 : (t + 1) * stride = t * stride + stride := by ring
  have h2 : (t + 1) * stride ≤ (t + 1 + i) * stride :=
    Nat.mul_le_mul_right _ (by omega)
  omega

theorem setRow_length (cs : List Cell) :
    ∀ (p : Nat) (img : List Cell), (setRow p cs img).length = img.length := by
  induction cs with
  | nil => intro p img; rfl
  | cons c rest ih =>
      intro p img
      simp only [setRow, ih, List.length_set]

theorem getD_setRow_out (cs : List Cell) :
    ∀ (p k : Nat) (img : List Cell), (∀ j, j < cs.length → k ≠ p + j) →
      (setRow p cs img).getD k default = img.getD k default := by
  induction cs with
  | nil => intro p k img _; rfl
  | cons c rest ih =>
      intro p k img hk
      have hkp : k ≠ p := by
        have := hk 0 (by simp)
        omega
      simp only [setRow]
      rw [ih (p + 1) k _ (by intro j hj; have := hk (j + 1) (by simp; omega); omega)]
      simp [List.getD_eq_getElem?_getD, List.getElem?_set_ne (Ne.symm hkp)]

theorem getD_setRow_in (cs : List Cell) :
    ∀ (p j : Nat) (img : List Cell), j < cs.length → p + cs.length ≤ img.length →
      (setRow p cs img).getD (p + j) default = cs.getD j default := by
  induction cs with
  | nil => intro p j img hj _; simp at hj
  | cons c rest ih =>
      intro p j img hj hlen
      simp only [setRow]
      match j with
      | 0 =>
          rw [getD_setRow_out rest (p + 1) (p + 0) _ (by intro j hj; omega)]
          have hp : p < img.length := by simp at hlen; omega
          simp [List.getD_eq_getElem?_getD, List.getElem?_set_self, hp]
      | j + 1 =>
          have h1 : p + (j + 1) = (p + 1) + j := by omega
          rw [h1, ih (p + 1) j _ (by simp at hj; omega)
            (by simp [List.length_set] at *; omega)]
          rfl

theorem readRow_eq_of_getD (n : Nat) :
    ∀ (p : Nat) (img1 img2 : List Cell),
      (∀ j, j < n → img1.getD (p + j) default = img2.getD (p + j) default) →
      readRow img1 p n = readRow img2 p n := by
  induction n with
  | zero => intro p img1 img2 _; rfl
  | succ n ih =>
      intro p img1 img2 h
      have h0 := h 0 (by omega)
      simp only [Nat.add_zero] at h0
      have htail : readRow img1 (p + 1) n = readRow img2 (p + 1) n := by
        apply ih
        intro j hj
        have hx := h (j + 1) (by omega)
        have he : p + (j + 1) = p + 1 + j := by omega
        rw [he] at hx
        exact hx
      simp only [readRow, h0, htail]

theorem readRow_setRow (cs : List Cell) (p : Nat) (img : List Cell)
    (hlen : p + cs.length ≤ img.length) :
    readRow (setRow p cs img) p cs.length = cs := by
  have hread : ∀ n, ∀ (j : Nat), j + n = cs.length →
      readRow (setRow p cs img) (p + j) n = cs.drop j := by
    intro n
    induction n with
    | zero =>
        intro j hj
        exact (List.drop_eq_nil_of_le (by omega)).symm
    | succ n ih =>
        intro j hj
        have hjlt : j < cs.length := by omega
        simp only [readRow]
        rw [getD_setRow_in cs p j img hjlt hlen]
        have h1 : p + j + 1 = p + (j + 1) := by omega
        rw [h1, ih (j + 1) (by omega)]
        rw [List.getD_eq_getElem?_getD, List.getElem?_eq_getElem hjlt]
        rw [List.drop_eq_getElem_cons hjlt]
        rfl
  have := hread cs.length 0 (by omega)
  simpa using this

theorem writeRegionAux_length (stride l span : Nat) (lines : Nat) :
    ∀ (t : Nat) (cells img : List Cell),
      (writeRegionAux stride l span t lines cells img).length = img.length := by
  induction lines with
  | zero => intro t cells img; rfl
  | succ li ih =>
      intro t cells img
      simp only [writeRegionAux, ih, setRow_length]

theorem getD_writeRegionAux_out (stride l span : Nat) (lines : Nat) :
    ∀ (t k : Nat) (cells img : List Cell),
      (∀ i, i < lines → ∀ j, j < span → k ≠ (t + i) * stride + (l + j)) →
      (writeRegionAux stride l span t lines cells img).getD k default =
        img.getD k default := by
  induction lines with
  | zero => intro t k cells img _; rfl
  | succ li ih =>
      intro t k cells img hk
      simp only [writeRegionAux]
      rw [ih (t + 1) k _ _ ?_]
      · apply getD_setRow_out
        intro j hj
        have hjs : j < span := lt_of_lt_of_le hj (List.length_take_le _ _)
        have := hk 0 (by omega) j hjs
        simp only [Nat.add_zero] at this
        omega
      · intro i hi j hj
        have := hk (i + 1) (by omega) j hj
        have he : t + (i + 1) = t + 1 + i := by omega
        rw [he] at this
        exact this

theorem readRow_length (n : Nat) :
    ∀ (p : Nat) (img : List Cell), (readRow img p n).length = n := by
  induction n with
  | zero => intro p img; rfl
  | succ n ih => intro p img; simp only [readRow, List.length_cons, ih]

theorem readRegionAux_length (stride l span : Nat) (lines : Nat) :
    ∀ (t : Nat) (img : List Cell),
      (readRegionAux stride l span img t lines).length = lines * span := by
  induction lines with
  | zero => intro t img; simp [readRegionAux]
  | succ li ih =>
      intro t img
      simp only [readRegionAux, List.length_append, ih, readRow_length]
      ring

/-- Reading back a freshly written region yields the written cells. -/
theorem readRegionAux_writeRegionAux (stride l span : Nat) (hls : l + span ≤ stride)
    (lines : Nat) :
    ∀ (t : Nat) (cells img : List Cell), cells.length = lines * span →
      (t + lines) * stride ≤ img.length →
      readRegionAux stride l span (writeRegionAux stride l span t lines cells img) t lines =
        cells := by
  induction lines with
  | zero =>
      intro t cells img hlen _
      simp only [readRegionAux]
      symm
      exact List.eq_nil_of_length_eq_zero (by omega)
  | succ li ih =>
      intro t cells img hlen hbound
      have hspanle : span ≤ cells.length := by
        have : span ≤ (li + 1) * span := Nat.le_mul_of_pos_left span (by omega)
        omega
      have htake : (cells.take span).length = span := by
        simp [List.length_take]
        omega
      have hrowbound : t * stride + l + span ≤ img.length := by
        have h1 : (t + 1) * stride ≤ (t + (li + 1)) * stride :=
          Nat.mul_le_mul_right _ (by omega)
        have h2 : (t + 1) * stride = t * stride + stride := by ring
        omega
      simp only [writeRegionAux, readRegionAux]
      have himg1len : (setRow (t * stride + l) (cells.take span) img).length = img.length :=
        setRow_length _ _ _
      have hhead :
          readRow (writeRegionAux stride l span (t + 1) li (cells.drop span)
              (setRow (t * stride + l) (cells.take span) img)) (t * stride + l) span =
            cells.take span := by
        have hframe :
            ∀ j, j < span →
              (writeRegionAux stride l span (t + 1) li (cells.drop span)
                  (setRow (t * stride + l) (cells.take span) img)).getD
                  (t * stride + l + j) default =
                (setRow (t * stride + l) (cells.take span) img).getD
                  (t * stride + l + j) default := by
          intro j hj
          apply getD_writeRegionAux_out
          intro i hi j2 hj2
          have := row_sep stride l span t i j j2 hls hj
          omega
        have hrow := readRow_setRow (cells.take span) (t * stride + l) img (by omega)
        rw [htake] at hrow
        calc readRow (writeRegionAux stride l span (t + 1) li (cells.drop span)
              (setRow (t * stride + l) (cells.take span) img)) (t * stride + l) span
            = readRow (setRow (t * stride + l) (cells.take span) img) (t * stride + l) span :=
              readRow_eq_of_getD span (t * stride + l) _ _ hframe
          _ = cells.take span := hrow
      have htail :
          readRegionAux stride l span
              (writeRegionAux stride l span (t + 1) li (cells.drop span)
                (setRow (t * stride + l) (cells.take span) img)) (t + 1) li =
            cells.drop span := by
        apply ih
        · have hmul : (li + 1) * span = li * span + span := by ring
          simp only [List.length_drop]
          omega
        · have : t + 1 + li = t + (li + 1) := by omega
          rw [this, himg1len]
          exact hbound
      rw [hhead, htail, List.take_append_drop]

/-- Unfolding one full row of the `screen_rewrite` copy loop. -/
theorem rewriteLoop_row (span lnd edge : Nat) (rc : List Cell) :
    ∀ (rest img : List Cell) (o p : Nat), o + rc.length = span → 1 ≤ rc.length →
      rewriteLoop span lnd edge (rc ++ rest) p o img =
        if p + rc.length + lnd ≥ edge then setRow p rc img
        else rewriteLoop span lnd edge rest (p + rc.length + lnd) 0 (setRow p rc img) := by
  induction rc with
  | nil => intro rest img o p _ h1; simp at h1
  | cons c rc ih =>
      intro rest img o p hlen h1
      cases rc with
      | nil =>
          simp only [List.cons_append, List.nil_append, rewriteLoop, List.length_cons,
            List.length_nil, Nat.zero_add, setRow]
          have ho : o + 1 ≥ span := by
            simp only [List.length_cons, List.length_nil, Nat.zero_add] at hlen
            omega
          rw [if_pos ho]
          rfl
      | cons c2 rc2 =>
          have hlen2 : o + (rc2.length + 1 + 1) = span := by
            simp only [List.length_cons] at hlen
            omega
          have ho : ¬ (o + 1 ≥ span) := by omega
          simp only [List.cons_append, rewriteLoop]
          rw [if_neg ho]
          have hih := ih rest (img.set p c) (o + 1) (p + 1)
            (by simp only [List.length_cons]; omega) (by simp)
          simp only [List.cons_append, rewriteLoop] at hih
          rw [hih]
          simp only [setRow, List.length_cons]
          have he : p + 1 + (rc2.length + 1) + lnd = p + (rc2.length + 1 + 1) + lnd := by omega
          rw [he]

/-- The `screen_rewrite` copy loop, fed exactly `lines * span` cells
inside the buffer, performs the row-major region write of `mforeach`. -/
theorem rewriteLoop_eq_writeRegionAux (stride Lines l span : Nat)
    (hls : l + span ≤ stride) (hspan : 1 ≤ span) (lines : Nat) :
    ∀ (t : Nat) (cells img : List Cell), cells.length = lines * span →
      t + lines ≤ Lines →
      rewriteLoop span (stride - span) (stride * Lines) cells (t * stride + l) 0 img =
        writeRegionAux stride l span t lines cells img := by
  induction lines with
  | zero =>
      intro t cells img hlen _
      have : cells = [] := List.eq_nil_of_length_eq_zero (by omega)
      subst this
      rfl
  | succ li ih =>
      intro t cells img hlen hline
      have hspanle : span ≤ cells.length := by
        have : span ≤ (li + 1) * span := Nat.le_mul_of_pos_left span (by omega)
        omega
      have htake : (cells.take span).length = span := by
        simp [List.length_take]
        omega
      have hsplit : cells = cells.take span ++ cells.drop span :=
        (List.take_append_drop span cells).symm
      have hrow := rewriteLoop_row span (stride - span) (stride * Lines)
        (cells.take span) (cells.drop span) img 0 (t * stride + l)
        (by omega) (by omega)
      rw [htake] at hrow
      have hjump : t * stride + l + span + (stride - span) = (t + 1) * stride + l := by
        have : (t + 1) * stride = t * stride + stride := by ring
        omega
      rw [hjump] at hrow
      rw [← hsplit] at hrow
      rw [hrow]
      simp only [writeRegionAux]
      cases li with
      | zero =>
          have hdrop : cells.drop span = [] := by
            apply List.eq_nil_of_length_eq_zero
            simp only [List.length_drop]
            omega
          simp only [writeRegionAux]
          split
          · rfl
          · rw [hdrop]
            rfl
      | succ li2 =>
          have hcond : ¬ ((t + 1) * stride + l ≥ stride * Lines) := by
            have h2 : (t + 2) * stride ≤ Lines * stride :=
              Nat.mul_le_mul_right _ (by omega)
            have h3 : (t + 2) * stride = (t + 1) * stride + stride := by ring
            have h4 : stride * Lines = Lines * stride := by ring
            omega
          rw [if_neg hcond]
          apply ih
          · have hmul : (li2 + 1 + 1) * span = (li2 + 1) * span + span := by ring
            simp only [List.length_drop]
            omega
          · omega

/-- Clipping an area already contained in 16-bit bounds is the
identity. -/
theorem aintersection_of_contains (w a : CellArea)
    (hwt : w.top_offset < u16) (hwl : w.left_offset < u16)
    (hwlines : w.lines < u16) (hwspan : w.span < u16)
    (h : areaContains w a) : aintersection w a = a := by
  obtain ⟨wt, wl, wL, wS⟩ := w
  obtain ⟨t2, l2, L2, S2⟩ := a
  obtain ⟨h1, h2, h3, h4⟩ := h
  simp only at *
  have hy := u32sub_no_wrap (wt + wL) t2 (by omega) (by unfold u16 u32 at *; omega)
  have hx := u32sub_no_wrap (wl + wS) l2 (by omega) (by unfold u16 u32 at *; omega)
  simp only [aintersection, hy, hx, CellArea.mk.injEq]
  omega

theorem readRegionAux_zero_span (stride l : Nat) (img : List Cell) (lines : Nat) :
    ∀ t, readRegionAux stride l 0 img t lines = [] := by
  induction lines with
  | zero => intro t; rfl
  | succ li ih =>
      intro t
      simp only [readRegionAux, readRow, List.nil_append]
      exact ih (t + 1)

/- ### Claim C3 -/

/-- C3: screen rewrite/select round-trip.  For a 16-bit screen whose
buffer covers its dimensions, any target area contained in the
dimensions, and any cell list of length `lines * span`, selecting the
target area after rewriting it returns exactly the written cells. -/
theorem screen_rewrite_select_roundtrip (s : Screen) (area : CellArea) (cells : List Cell)
    (hwt : s.dimensions.top_offset < u16) (hwl : s.dimensions.left_offset < u16)
    (hwlines : s.dimensions.lines < u16) (hwspan : s.dimensions.span < u16)
    (hat : area.top_offset < u16) (hal : area.left_offset < u16)
    (hcont : areaContains s.dimensions area)
    (hlen : cells.length = area.lines * area.span)
    (hbuf : s.image.length = s.dimensions.lines * s.dimensions.span) :
    screen_select (screen_rewrite s area cells) area = cells := by
  obtain ⟨h1, h2, h3, h4⟩ := hcont
  have hinter : aintersection s.dimensions area = area :=
    aintersection_of_contains _ _ hwt hwl hwlines hwspan ⟨h1, h2, h3, h4⟩
  have hselTop : u16sub area.top_offset s.dimensions.top_offset =
      area.top_offset - s.dimensions.top_offset := u16sub_no_wrap _ _ h1 hat
  have hselLeft : u16sub area.left_offset s.dimensions.left_offset =
      area.left_offset - s.dimensions.left_offset := u16sub_no_wrap _ _ h3 hal
  simp only [screen_select, screen_rewrite, readRegion, hinter, hselTop, hselLeft]
  by_cases hsz : area.span = 0
  · have hnil : cells = [] := by
      apply List.eq_nil_of_length_eq_zero
      rw [hsz] at hlen
      simpa using hlen
    subst hnil
    simp only [hsz, rewriteLoop, readRegionAux_zero_span]
  · have hpos : 1 ≤ area.span := by omega
    have hls : (area.left_offset - s.dimensions.left_offset) + area.span ≤
        s.dimensions.span := by omega
    have hline : (area.top_offset - s.dimensions.top_offset) + area.lines ≤
        s.dimensions.lines := by omega
    have hcomm : s.dimensions.span *
        (area.top_offset - s.dimensions.top_offset) +
        (area.left_offset - s.dimensions.left_offset) =
        (area.top_offset - s.dimensions.top_offset) * s.dimensions.span +
        (area.left_offset - s.dimensions.left_offset) := by ring
    have hloop := rewriteLoop_eq_writeRegionAux s.dimensions.span s.dimensions.lines
      (area.left_offset - s.dimensions.left_offset) area.span hls hpos area.lines
      (area.top_offset - s.dimensions.top_offset) cells s.image hlen hline
    rw [hcomm, hloop]
    apply readRegionAux_writeRegionAux _ _ _ hls
    · exact hlen
    · have hmul : ((area.top_offset - s.dimensions.top_offset) + area.lines) *
          s.dimensions.span ≤ s.dimensions.lines * s.dimensions.span :=
        Nat.mul_le_mul_right _ hline
      omega

/-- C3 witness, Scenario A: a `(lines=2, span=3)` screen rewritten
with cells `A..F` (codepoints 65..70); selecting `(0,0,2,3)` returns
them all, and selecting the column `(0,1,2,1)` returns `[B, E]`. -/
theorem screen_rewrite_select_roundtrip_witness :
    screen_select
        (screen_rewrite ⟨⟨0, 0, 2, 3⟩, List.replicate 6 default⟩ ⟨0, 0, 2, 3⟩
          [glyphCell 65, glyphCell 66, glyphCell 67,
           glyphCell 68, glyphCell 69, glyphCell 70]) ⟨0, 0, 2, 3⟩ =
      [glyphCell 65, glyphCell 66, glyphCell 67,
       glyphCell 68, glyphCell 69, glyphCell 70] ∧
    screen_select
        (screen_rewrite ⟨⟨0, 0, 2, 3⟩, List.replicate 6 default⟩ ⟨0, 0, 2, 3⟩
          [glyphCell 65, glyphCell 66, glyphCell 67,
           glyphCell 68, glyphCell 69, glyphCell 70]) ⟨0, 1, 2, 1⟩ =
      [glyphCell 66, glyphCell 69] :=
  ⟨screen_rewrite_select_roundtrip ⟨⟨0, 0, 2, 3⟩, List.replicate 6 default⟩ ⟨0, 0, 2, 3⟩
      [glyphCell 65, glyphCell 66, glyphCell 67,
       glyphCell 68, glyphCell 69, glyphCell 70]
      (by decide) (by decide) (by decide) (by decide) (by decide) (by decide)
      (by decide) (by decide) (by decide),
   by decide⟩

/-- `screen_select` on an area contained in the screen reads exactly
that region (clipping is the identity, translation subtracts the
screen's offsets). -/
theorem screen_select_contained (s : Screen) (a : CellArea)
    (hwt : s.dimensions.top_offset < u16) (hwl : s.dimensions.left_offset < u16)
    (hwlines : s.dimensions.lines < u16) (hwspan : s.dimensions.span < u16)
    (hat : a.top_offset < u16) (hal : a.left_offset < u16)
    (hcont : areaContains s.dimensions a) :
    screen_select s a =
      readRegionAux s.dimensions.span (a.left_offset - s.dimensions.left_offset) a.span
        s.image (a.top_offset - s.dimensions.top_offset) a.lines := by
  unfold screen_select readRegion
  rw [aintersection_of_contains _ _ hwt hwl hwlines hwspan hcont]
  dsimp only
  rw [u16sub_no_wrap _ _ hcont.1 hat, u16sub_no_wrap _ _ hcont.2.2.1 hal]

/-- The reconciled areas of `screen_replicate_cells` on a zero-origin
screen: both regions keep their requested origins; the common extents
are the minima of the clipped source extents and the space available
at the destination origin. -/
theorem replicate_areas_spec (dims destination source : CellArea)
    (hz1 : dims.top_offset = 0) (hz2 : dims.left_offset = 0)
    (hdlines : dims.lines < u16) (hdspan : dims.span < u16)
    (h1 : source.top_offset ≤ dims.lines) (h2 : source.left_offset ≤ dims.span)
    (h3 : destination.top_offset ≤ dims.lines) (h4 : destination.left_offset ≤ dims.span) :
    replicate_areas dims destination source =
      (⟨source.top_offset, source.left_offset,
        min (dims.lines - destination.top_offset)
          (min (dims.lines - source.top_offset) source.lines),
        min (dims.span - destination.left_offset)
          (min (dims.span - source.left_offset) source.span)⟩,
       ⟨destination.top_offset, destination.left_offset,
        min (dims.lines - destination.top_offset)
          (min (dims.lines - source.top_offset) source.lines),
        min (dims.span - destination.left_offset)
          (min (dims.span - source.left_offset) source.span)⟩) := by
  obtain ⟨wt, wl, wL, wS⟩ := dims
  obtain ⟨dt, dl, dLn, dSp⟩ := destination
  obtain ⟨st, sl, sLn, sSp⟩ := source
  dsimp only at hz1 hz2 hdlines hdspan h1 h2 h3 h4 ⊢
  subst hz1
  subst hz2
  have hu : u16 ≤ u32 := by decide
  have e1 := u32sub_no_wrap (0 + wL) st (by omega) (by unfold u16 u32 at *; omega)
  have e2 := u32sub_no_wrap (0 + wS) sl (by omega) (by unfold u16 u32 at *; omega)
  have e3 := u32sub_no_wrap (0 + wL) dt (by omega) (by unfold u16 u32 at *; omega)
  have e4 := u32sub_no_wrap (0 + wS) dl (by omega) (by unfold u16 u32 at *; omega)
  simp only [replicate_areas, aintersection, e1, e2, e3, e4, Prod.mk.injEq,
    CellArea.mk.injEq]
  refine ⟨⟨?_, ?_, ?_, ?_⟩, ?_, ?_, ?_, ?_⟩ <;> omega

/- ### Claim C1 -/

/-- C1: replicate is a semantic blit.  On a zero-origin 16-bit screen
whose buffer covers its dimensions, for any destination/source areas
whose origins lie inside the screen, after `replicate_cells` the
selection of the written (reconciled) destination region equals the
selection the reconciled source region had before the call — the
pre-copy source image, via the temporary buffer, even when the two
regions overlap. -/
theorem screen_replicate_semantic_blit (s : Screen) (destination source : CellArea)
    (hz1 : s.dimensions.top_offset = 0) (hz2 : s.dimensions.left_offset = 0)
    (hdlines : s.dimensions.lines < u16) (hdspan : s.dimensions.span < u16)
    (h1 : source.top_offset ≤ s.dimensions.lines)
    (h2 : source.left_offset ≤ s.dimensions.span)
    (h3 : destination.top_offset ≤ s.dimensions.lines)
    (h4 : destination.left_offset ≤ s.dimensions.span)
    (hbuf : s.image.length = s.dimensions.lines * s.dimensions.span) :
    screen_select (screen_replicate_cells s destination source)
        (replicate_areas s.dimensions destination source).2 =
      screen_select s (replicate_areas s.dimensions destination source).1 := by
  obtain ⟨⟨wt, wl, wL, wS⟩, img⟩ := s
  obtain ⟨dt, dl, dLn, dSp⟩ := destination
  obtain ⟨st, sl, sLn, sSp⟩ := source
  dsimp only at hz1 hz2 hdlines hdspan h1 h2 h3 h4 hbuf ⊢
  subst hz1
  subst hz2
  have hra := replicate_areas_spec ⟨0, 0, wL, wS⟩ ⟨dt, dl, dLn, dSp⟩ ⟨st, sl, sLn, sSp⟩
    rfl rfl hdlines hdspan h1 h2 h3 h4
  dsimp only at hra
  set L := min (wL - dt) (min (wL - st) sLn) with hLdef
  set S := min (wS - dl) (min (wS - sl) sSp) with hSdef
  have hcontS : areaContains ⟨0, 0, wL, wS⟩ ⟨st, sl, L, S⟩ := by
    unfold areaContains
    dsimp only
    omega
  have hcontD : areaContains ⟨0, 0, wL, wS⟩ ⟨dt, dl, L, S⟩ := by
    unfold areaContains
    dsimp only
    omega
  have him : screen_replicate_cells ⟨⟨0, 0, wL, wS⟩, img⟩ ⟨dt, dl, dLn, dSp⟩
      ⟨st, sl, sLn, sSp⟩ =
      ⟨⟨0, 0, wL, wS⟩,
        writeRegionAux wS dl S dt L (readRegionAux wS sl S img st L) img⟩ := by
    unfold screen_replicate_cells writeRegion readRegion
    rw [hra]
  have hselR := screen_select_contained ⟨⟨0, 0, wL, wS⟩, img⟩ ⟨st, sl, L, S⟩
    (by dsimp only; unfold u16; omega) (by dsimp only; unfold u16; omega)
    hdlines hdspan (by dsimp only; omega) (by dsimp only; omega) hcontS
  have hselL := screen_select_contained
    ⟨⟨0, 0, wL, wS⟩, writeRegionAux wS dl S dt L (readRegionAux wS sl S img st L) img⟩
    ⟨dt, dl, L, S⟩
    (by dsimp only; unfold u16; omega) (by dsimp only; unfold u16; omega)
    hdlines hdspan (by dsimp only; omega) (by dsimp only; omega) hcontD
  dsimp only at hselR hselL
  rw [hra]
  dsimp only
  rw [him, hselL, hselR]
  simp only [Nat.sub_zero]
  apply readRegionAux_writeRegionAux
  · omega
  · exact readRegionAux_length wS sl S L st img
  · have hmono : (dt + L) * wS ≤ wL * wS := Nat.mul_le_mul_right _ (by omega)
    omega

/-- C1 witness, Scenario B: screen `(1,5)` holding `[1,2,3,4,5]`;
`replicate(dst=(0,1,1,4), src=(0,0,1,4))` makes the destination
selection equal the pre-copy source selection, and the buffer becomes
`[1,1,2,3,4]`. -/
theorem screen_replicate_semantic_blit_witness :
    screen_select
        (screen_replicate_cells
          ⟨⟨0, 0, 1, 5⟩, [glyphCell 1, glyphCell 2, glyphCell 3, glyphCell 4, glyphCell 5]⟩
          ⟨0, 1, 1, 4⟩ ⟨0, 0, 1, 4⟩)
        (replicate_areas ⟨0, 0, 1, 5⟩ ⟨0, 1, 1, 4⟩ ⟨0, 0, 1, 4⟩).2 =
      screen_select
        ⟨⟨0, 0, 1, 5⟩, [glyphCell 1, glyphCell 2, glyphCell 3, glyphCell 4, glyphCell 5]⟩
        (replicate_areas ⟨0, 0, 1, 5⟩ ⟨0, 1, 1, 4⟩ ⟨0, 0, 1, 4⟩).1 ∧
    (screen_replicate_cells
        ⟨⟨0, 0, 1, 5⟩, [glyphCell 1, glyphCell 2, glyphCell 3, glyphCell 4, glyphCell 5]⟩
        ⟨0, 1, 1, 4⟩ ⟨0, 0, 1, 4⟩).image =
      [glyphCell 1, glyphCell 1, glyphCell 2, glyphCell 3, glyphCell 4] :=
  ⟨screen_replicate_semantic_blit
      ⟨⟨0, 0, 1, 5⟩, [glyphCell 1, glyphCell 2, glyphCell 3, glyphCell 4, glyphCell 5]⟩
      ⟨0, 1, 1, 4⟩ ⟨0, 0, 1, 4⟩
      (by decide) (by decide) (by decide) (by decide)
      (by decide) (by decide) (by decide) (by decide) (by decide),
   by decide⟩

/- ### Claim C8 -/

/-- C8 counterexample: `screen_replicate_cells` discards the
destination's own extents (they are overwritten by the clipped
source's before clipping), so with `destination.lines <
source.lines` it does **not** restrict the copy to
`destination.lines` rows.  On the `(5,1)` screen `[1,2,3,4,5]`,
`replicate(dst=(0,0,1,1), src=(1,0,3,1))` writes three rows, giving
`[2,3,4,4,5]`, not the single-row result `[2,2,3,4,5]` the claim
demands. -/
theorem screen_replicate_tiebreak_counterexample :
    (screen_replicate_cells
        ⟨⟨0, 0, 5, 1⟩, [glyphCell 1, glyphCell 2, glyphCell 3, glyphCell 4, glyphCell 5]⟩
        ⟨0, 0, 1, 1⟩ ⟨1, 0, 3, 1⟩).image =
      [glyphCell 2, glyphCell 3, glyphCell 4, glyphCell 4, glyphCell 5] ∧
    [glyphCell 2, glyphCell 3, glyphCell 4, glyphCell 4, glyphCell 5] ≠
      [glyphCell 2, glyphCell 2, glyphCell 3, glyphCell 4, glyphCell 5] := by
  constructor
  · decide
  · decide

/-- C8 (amended): size reconciliation and frame condition.  The
written region keeps the destination's origin; its extents are
`min(space at the destination origin, clipped source extents)` — the
destination's requested extents are ignored, having been replaced by
the clipped source's before clipping.  Consequently when the source
fits at both origins, exactly the source's (clipped) extent is
written even when `destination.lines` is smaller or larger.  Every
buffer cell outside the written region — in particular any remainder
of the requested destination rectangle — is unchanged. -/
theorem screen_replicate_reconciliation_frame (s : Screen) (destination source : CellArea)
    (hz1 : s.dimensions.top_offset = 0) (hz2 : s.dimensions.left_offset = 0)
    (hdlines : s.dimensions.lines < u16) (hdspan : s.dimensions.span < u16)
    (h1 : source.top_offset ≤ s.dimensions.lines)
    (h2 : source.left_offset ≤ s.dimensions.span)
    (h3 : destination.top_offset ≤ s.dimensions.lines)
    (h4 : destination.left_offset ≤ s.dimensions.span) :
    ((replicate_areas s.dimensions destination source).2 =
      ⟨destination.top_offset, destination.left_offset,
        min (s.dimensions.lines - destination.top_offset)
          (min (s.dimensions.lines - source.top_offset) source.lines),
        min (s.dimensions.span - destination.left_offset)
          (min (s.dimensions.span - source.left_offset) source.span)⟩) ∧
    (source.top_offset + source.lines ≤ s.dimensions.lines →
      destination.top_offset + source.lines ≤ s.dimensions.lines →
      (replicate_areas s.dimensions destination source).2.lines = source.lines) ∧
    (∀ k,
      (∀ i, i < (replicate_areas s.dimensions destination source).2.lines →
        ∀ j, j < (replicate_areas s.dimensions destination source).2.span →
          k ≠ (destination.top_offset + i) * s.dimensions.span +
            (destination.left_offset + j)) →
      (screen_replicate_cells s destination source).image.getD k default =
        s.image.getD k default) := by
  have hra := replicate_areas_spec s.dimensions destination source hz1 hz2
    hdlines hdspan h1 h2 h3 h4
  refine ⟨?_, ?_, ?_⟩
  · rw [hra]
  · intro h5 h6
    rw [hra]
    dsimp only
    omega
  · intro k hk
    rw [hra] at hk
    dsimp only at hk
    show (screen_replicate_cells s destination source).image.getD k default =
      s.image.getD k default
    unfold screen_replicate_cells writeRegion
    rw [hra]
    dsimp only
    exact getD_writeRegionAux_out _ _ _ _ _ _ _ _ hk

/-- C8 witness: the amended reconciliation applied to the `(5,1)`
screen: the written region of `replicate(dst=(0,0,1,1),
src=(1,0,3,1))` is `(0,0,3,1)` (three rows — the source extent), and a
cell outside it (index 4) is untouched. -/
theorem screen_replicate_reconciliation_frame_witness :
    (replicate_areas ⟨0, 0, 5, 1⟩ ⟨0, 0, 1, 1⟩ ⟨1, 0, 3, 1⟩).2 =
      ⟨0, 0, min (5 - 0) (min (5 - 1) 3), min (1 - 0) (min (1 - 0) 1)⟩ ∧
    (screen_replicate_cells
        ⟨⟨0, 0, 5, 1⟩, [glyphCell 1, glyphCell 2, glyphCell 3, glyphCell 4, glyphCell 5]⟩
        ⟨0, 0, 1, 1⟩ ⟨1, 0, 3, 1⟩).image.getD 4 default =
      [glyphCell 1, glyphCell 2, glyphCell 3, glyphCell 4,
        glyphCell 5].getD 4 default := by
  have h := screen_replicate_reconciliation_frame
    ⟨⟨0, 0, 5, 1⟩, [glyphCell 1, glyphCell 2, glyphCell 3, glyphCell 4, glyphCell 5]⟩
    ⟨0, 0, 1, 1⟩ ⟨1, 0, 3, 1⟩
    (by decide) (by decide) (by decide) (by decide)
    (by decide) (by decide) (by decide) (by decide)
  exact ⟨h.1, h.2.2 4 (by decide)⟩

/- ### Controller model (controller.h, module.c device_key) -/

/-- `InstructionKey_Offset` (controller.h line 97). -/
def InstructionKey_Offset : Int := -0xA000

/-- `InstructionKey_Identifier(X) = InstructionKey_Offset - X`. -/
def InstructionKey_Identifier (n : Int) : Int := InstructionKey_Offset - n

/-- `ai_session_close` is the 4th enumerator
(status, clone, create, close). -/
def ai_session_close : Int := 4

/-- `ai_session_synchronize` is the 6th enumerator. -/
def ai_session_synchronize : Int := 6

/-- `ai_sentinel`. -/
def ai_sentinel : Int := 45

/-- `struct ControllerStatus` (controller.h lines 72-84).  The
`st_receiver` callback is a function pointer cleared out of band; it
does not participate in the event fields the mirror frames carry. -/
structure ControllerStatus where
  st_dispatch : Int
  st_quantity : Int
  st_keys : Nat
  st_text_length : Nat
  st_top : Int
  st_left : Int
deriving DecidableEq

instance : Inhabited ControllerStatus := ⟨⟨0, 0, 0, 0, 0, 0⟩⟩

/-- The three framed reads `device_transfer_event` performs on the
controls channel (implementation.c lines 53-63): the fixed-size
`ControllerStatus`, the 16-bit text length, and the text payload.
`none` records that `receive` returned a negative value (EOF after
`read() == 0`, or a read error) before that item was fully
received. -/
structure ControlsChannel where
  cc_status : Option ControllerStatus
  cc_text_length : Option Nat
  cc_text : Option (List Nat)

/-- The `error:` block of `device_transfer_event` (implementation.c
lines 74-83): overwrite the dispatch with the `session/close`
instruction identifier, zero the text length, set quantity 1.  The
remaining fields keep whatever the interrupted read left in the
record. -/
def eof_event (ctl : ControllerStatus) : ControllerStatus :=
  { ctl with
    st_dispatch := InstructionKey_Identifier ai_session_close,
    st_text_length := 0,
    st_quantity := 1 }

/-- `device_transfer_event` for the mirror device (implementation.c
lines 46-84), with the channel reads made explicit.  `prior` is the
contents of the shared status record when the call starts (a partial
first read leaves unspecified bytes there; only the three fields the
error path overwrites are observable in that case).  Returns the new
status record and the C return value (always 1).  The
`dc_resize_screen` dimension copy touches `cm_dimensions`, not the
status record, and is outside this claim. -/
def device_transfer_event (ch : ControlsChannel) (prior : ControllerStatus) :
    ControllerStatus × Nat :=
  match ch.cc_status with
  | none => (eof_event prior, 1)
  | some ctl0 =>
    match ch.cc_text_length with
    | none => (eof_event ctl0, 1)
    | some tl =>
      if tl = 0 then (ctl0, 1)
      else
        match ch.cc_text with
        | none => (eof_event ctl0, 1)
        | some _ => ({ ctl0 with st_text_length := tl }, 1)

/- ### Claim C9 -/

/-- C9: EOF handling on the mirror controls channel.  Whenever the
frame reaches end-of-file before the full `ControllerStatus`, before
the text-length word, or (for a nonzero announced length) before the
text payload, `device_transfer_event` still returns normally (value
1) and synthesizes a `session/close` event: dispatch is the
`InstructionKey` identifier of `ai_session_close` (`-0xA004`), with
`text_length = 0` and `quantity = 1`. -/
theorem transfer_event_eof_synthesizes_close (ch : ControlsChannel)
    (prior : ControllerStatus)
    (heof : ch.cc_status = none ∨
      (ch.cc_text_length = none ∧ ch.cc_status ≠ none) ∨
      (∃ tl, ch.cc_text_length = some tl ∧ tl ≠ 0 ∧ ch.cc_text = none ∧
        ch.cc_status ≠ none)) :
    ∃ ctl, device_transfer_event ch prior = (ctl, 1) ∧
      ctl.st_dispatch = InstructionKey_Identifier ai_session_close ∧
      ctl.st_dispatch = -(0xA000 + 4) ∧
      ctl.st_text_length = 0 ∧
      ctl.st_quantity = 1 := by
  obtain ⟨st, tlen, txt⟩ := ch
  rcases heof with h | ⟨h, hne⟩ | ⟨tl, h, htl, htxt, hne⟩
  · dsimp only at h
    subst h
    exact ⟨eof_event prior, rfl, rfl, by rfl, rfl, rfl⟩
  · dsimp only at h hne
    subst h
    match st with
    | none => exact absurd rfl hne
    | some ctl0 =>
        exact ⟨eof_event ctl0, rfl, rfl, by rfl, rfl, rfl⟩
  · dsimp only at h htxt hne
    subst h
    subst htxt
    match st with
    | none => exact absurd rfl hne
    | some ctl0 =>
        refine ⟨eof_event ctl0, ?_, rfl, by rfl, rfl, rfl⟩
        unfold device_transfer_event
        dsimp only
        rw [if_neg htl]

/-- C9 witness: a channel that hits EOF immediately (no status
received) produces the synthetic `session/close` event with dispatch
`-0xA004`, empty text and quantity 1. -/
theorem transfer_event_eof_witness :
    ∃ ctl, device_transfer_event ⟨none, none, none⟩ default = (ctl, 1) ∧
      ctl.st_dispatch = InstructionKey_Identifier ai_session_close ∧
      ctl.st_dispatch = -(0xA000 + 4) ∧
      ctl.st_text_length = 0 ∧
      ctl.st_quantity = 1 :=
  transfer_event_eof_synthesizes_close ⟨none, none, none⟩ default (Or.inl rfl)

/- ### Tile cache model (xdg-xcb/display.c) -/

/-- `struct TileRecord` (xdg-xcb.h lines 61-66): rate counters
(`ssize_t`), the physical slot binding `(image, line, cell)`
(`uint16_t`), and the cell key compared bytewise (`memcmp`), which on
this value model is structural equality. -/
structure TileRecord where
  tr_hits : Int
  tr_passes : Int
  tr_rate : Int
  tr_image : Nat
  tr_line : Nat
  tr_cell : Nat
  tr_key : Cell
deriving DecidableEq

instance : Inhabited TileRecord := ⟨⟨0, 0, 0, 0, 0, 0, default⟩⟩

/-- The mutation `prioritize` applies to `latter` once the sampling
threshold is reached (display.c lines 351-363): negate the rate when
passed more than hit, fold the sampled rate into the running average
with C `ssize_t` division (truncation toward zero, `Int.tdiv`), and
reset the counters. -/
def prioritize_update (latter : TileRecord) : TileRecord :=
  let l1 :=
    if latter.tr_hits < latter.tr_passes then
      { latter with tr_passes := latter.tr_hits, tr_hits := -latter.tr_passes }
    else latter
  { l1 with
    tr_rate := Int.tdiv (l1.tr_rate + Int.tdiv l1.tr_hits l1.tr_passes) 2,
    tr_hits := 1,
    tr_passes := 1 }

/-- `prioritize(former, latter)` (display.c lines 344-378) acting on
two distinct records: returns the contents of the former and latter
slots after the call together with the record value the function
returns (always the updated `latter`, wherever it now lives). -/
def prioritize (former latter : TileRecord) : TileRecord × TileRecord × TileRecord :=
  if latter.tr_hits + latter.tr_passes < 50 then (former, latter, latter)
  else
    let l2 := prioritize_update latter
    if l2.tr_rate - former.tr_rate > 5 then (l2, former, l2) else (former, l2, l2)

/-- `prioritize(p, p)` with both arguments aliased to the same record,
as happens on the first loop iteration of `cache_acquire_tile_record`
where `previous == current`: the rate update applies, and the swap
test compares the record with itself, so no relocation occurs. -/
def prioritize_self (r : TileRecord) : TileRecord :=
  if r.tr_hits + r.tr_passes < 50 then r else prioritize_update r

/-- The record walk of `cache_acquire_tile_record` (display.c lines
389-404) from the second record on: `prev` is the contents of the
previous slot, `rest` the remaining records.  On a key match the hit
counter is bumped and `prioritize` may swap the matched record with
the previous slot; the returned record is reported.  On a miss the
pass counter is bumped, `prioritize` may swap, and the walk continues
behind the new latter slot. -/
def acquire_walk (c : Cell) (prev : TileRecord) :
    List TileRecord → Option TileRecord × List TileRecord
  | [] => (none, [prev])
  | cur :: rest =>
    if cur.tr_key = c then
      let cur1 := { cur with tr_hits := cur.tr_hits + 1 }
      let fl := prioritize prev cur1
      (some fl.2.2, fl.1 :: fl.2.1 :: rest)
    else
      let cur1 := { cur with tr_passes := cur.tr_passes + 1 }
      let fl := prioritize prev cur1
      let rec1 := acquire_walk c fl.2.1 rest
      (rec1.1, fl.1 :: rec1.2)

/-- The full walk over a bucket's live records, handling the aliased
first iteration (`previous = current` initially). -/
def acquire_bucket (c : Cell) : List TileRecord → Option TileRecord × List TileRecord
  | [] => (none, [])
  | r0 :: rest =>
    if r0.tr_key = c then
      let r1 := prioritize_self { r0 with tr_hits := r0.tr_hits + 1 }
      (some r1, r1 :: rest)
    else
      let r1 := prioritize_self { r0 with tr_passes := r0.tr_passes + 1 }
      acquire_walk c r1 rest

/-- One bucket of the index: `dtc_record_counts[b]`,
`dtc_record_slots[b]` and the record allocation `dtc_records[b]`
(whose length is the slot count; records beyond `b_count` are stale
but retain their physical-slot bindings). -/
structure Bucket where
  b_count : Nat
  b_slots : Nat
  b_records : List TileRecord

instance : Inhabited Bucket := ⟨⟨0, 0, []⟩⟩

/-- `struct Device_TileCache` (xdg-xcb.h lines 71-87).  `dtc_hash`
abstracts `hash_cell` (display.c lines 222-242): that function mixes
the 32-bit words of the implementation-defined byte image of `struct
Cell`, which a value-level model cannot fix; only its determinism and
the final reduction modulo `dtc_distribution_size` matter to the
claims, so the word-mixing is a function-valued field and the modulus
is kept explicit.  Cell dimensions are modeled in whole pixel units. -/
structure TileCache where
  dtc_cell_width : Nat
  dtc_cell_height : Nat
  dtc_image_confinement : Nat
  dtc_image_limit : Nat
  dtc_image_next : Nat
  dtc_allocation_size : Nat
  dtc_distribution_size : Nat
  dtc_buckets : List Bucket
  dtc_hash : Cell → Nat

/-- `structure_cell_index` (display.c lines 211-220): bind a record to
the physical slot of an absolute cell index. -/
def structure_cell_index (confinement cell_index : Nat) (tr : TileRecord) : TileRecord :=
  let cs := confinement * confinement
  let image := cell_index / cs
  { tr with
    tr_cell := cell_index % confinement,
    tr_image := image,
    tr_line := (cell_index - image * cs) / confinement }

/-- `cache_allocate_tile` (display.c lines 257-326).  When no physical
slots remain and the bucket is full, the record count is first
reduced by `rcount / 4` (C integer division, i.e. the floor).  If the
bucket is still full it is grown by `min(image_limit - image_next,
allocation_size)` records, each bound to a fresh physical slot; when
no growth is possible the last record is overwritten.  The new record
is placed at the (possibly reduced) count with fresh counters,
reusing whatever slot binding the record at that position carries. -/
def cache_allocate_tile (tc : TileCache) (r : Nat) (c : Cell) : TileRecord × TileCache :=
  let bk := tc.dtc_buckets.getD r default
  let count1 :=
    if tc.dtc_image_limit ≤ tc.dtc_image_next ∧ bk.b_slots ≤ bk.b_count then
      bk.b_count - bk.b_count / 4
    else bk.b_count
  if bk.b_slots ≤ count1 then
    let d := min (tc.dtc_image_limit - tc.dtc_image_next) tc.dtc_allocation_size
    if 0 < d then
      let newRecs := (List.range d).map fun i =>
        structure_cell_index tc.dtc_image_confinement (tc.dtc_image_next + i) default
      let records1 := bk.b_records ++ newRecs
      let new1 : TileRecord :=
        { records1.getD count1 default with
          tr_hits := 1, tr_passes := 1, tr_rate := 1, tr_key := c }
      let bk1 : Bucket :=
        ⟨count1 + 1, bk.b_slots + d, records1.set count1 new1⟩
      (new1, { tc with
        dtc_image_next := tc.dtc_image_next + d,
        dtc_buckets := tc.dtc_buckets.set r bk1 })
    else
      let count2 := count1 - 1
      let new1 : TileRecord :=
        { bk.b_records.getD count2 default with
          tr_hits := 1, tr_passes := 1, tr_rate := 1, tr_key := c }
      let bk1 : Bucket := ⟨count2 + 1, bk.b_slots, bk.b_records.set count2 new1⟩
      (new1, { tc with dtc_buckets := tc.dtc_buckets.set r bk1 })
  else
    let new1 : TileRecord :=
      { bk.b_records.getD count1 default with
        tr_hits := 1, tr_passes := 1, tr_rate := 1, tr_key := c }
    let bk1 : Bucket := ⟨count1 + 1, bk.b_slots, bk.b_records.set count1 new1⟩
    (new1, { tc with dtc_buckets := tc.dtc_buckets.set r bk1 })

/-- `cache_acquire_tile_record` (display.c lines 380-407): walk the
live records of the hashed bucket; on a miss, allocate and rasterize
(`cache_render_tile`).  The third component records whether the
rasterizer ran. -/
def cache_acquire_tile_record (tc : TileCache) (c : Cell) :
    TileRecord × TileCache × Bool :=
  let r := tc.dtc_hash c % tc.dtc_distribution_size
  let bk := tc.dtc_buckets.getD r default
  let live := bk.b_records.take bk.b_count
  let wres := acquire_bucket c live
  match wres.1 with
  | some ret =>
      let bk1 : Bucket := ⟨bk.b_count, bk.b_slots, wres.2 ++ bk.b_records.drop bk.b_count⟩
      (ret, { tc with dtc_buckets := tc.dtc_buckets.set r bk1 }, false)
  | none =>
      let bk1 : Bucket := ⟨bk.b_count, bk.b_slots, wres.2 ++ bk.b_records.drop bk.b_count⟩
      let tc1 := { tc with dtc_buckets := tc.dtc_buckets.set r bk1 }
      let ares := cache_allocate_tile tc1 r c
      (ares.1, ares.2, true)

/-- `cache_acquire_tile` (display.c lines 412-421): project the
acquired record to `(image, xtile, ytile)` in pixel units. -/
def cache_acquire_tile (tc : TileCache) (c : Cell) :
    (Nat × Nat × Nat) × TileCache × Bool :=
  let ares := cache_acquire_tile_record tc c
  ((ares.1.tr_image, ares.1.tr_cell * tc.dtc_cell_width,
    ares.1.tr_line * tc.dtc_cell_height), ares.2.1, ares.2.2)

/- ### Cache lemmas -/

/-- Two records agree on the cache-relevant identity: key and
physical-slot binding. -/
def sameId (a b : TileRecord) : Prop :=
  a.tr_key = b.tr_key ∧ a.tr_image = b.tr_image ∧
  a.tr_line = b.tr_line ∧ a.tr_cell = b.tr_cell

theorem sameId_refl (a : TileRecord) : sameId a a := ⟨rfl, rfl, rfl, rfl⟩

theorem sameId_trans {a b c : TileRecord} (h1 : sameId a b) (h2 : sameId b c) :
    sameId a c := by
  obtain ⟨x1, x2, x3, x4⟩ := h1
  obtain ⟨y1, y2, y3, y4⟩ := h2
  exact ⟨x1.trans y1, x2.trans y2, x3.trans y3, x4.trans y4⟩

theorem prioritize_update_sameId (q : TileRecord) : sameId (prioritize_update q) q := by
  unfold prioritize_update sameId
  split <;> exact ⟨rfl, rfl, rfl, rfl⟩

theorem prioritize_self_sameId (r : TileRecord) : sameId (prioritize_self r) r := by
  unfold prioritize_self
  split
  · exact sameId_refl r
  · exact prioritize_update_sameId r

theorem prioritize_spec (p q : TileRecord) :
    sameId (prioritize p q).2.2 q ∧
    ((sameId (prioritize p q).1 p ∧ sameId (prioritize p q).2.1 q) ∨
     (sameId (prioritize p q).1 q ∧ sameId (prioritize p q).2.1 p)) := by
  unfold prioritize
  split
  · exact ⟨sameId_refl q, Or.inl ⟨sameId_refl p, sameId_refl q⟩⟩
  · dsimp only
    split
    · exact ⟨prioritize_update_sameId q,
        Or.inr ⟨prioritize_update_sameId q, sameId_refl p⟩⟩
    · exact ⟨prioritize_update_sameId q,
        Or.inl ⟨sameId_refl p, prioritize_update_sameId q⟩⟩

theorem acquire_walk_length (c : Cell) :
    ∀ (rest : List TileRecord) (prev : TileRecord),
      (acquire_walk c prev rest).2.length = rest.length + 1 := by
  intro rest
  induction rest with
  | nil => intro prev; rfl
  | cons cur rest ih =>
      intro prev
      simp only [acquire_walk]
      split
      · simp
      · simp only [List.length_cons, ih]

theorem acquire_bucket_length (c : Cell) (live : List TileRecord) :
    (acquire_bucket c live).2.length = live.length := by
  cases live with
  | nil => rfl
  | cons r0 rest =>
      simp only [acquire_bucket]
      split
      · simp
      · simp only [acquire_walk_length, List.length_cons]

/-- The record walk, started behind a non-matching previous record, on
a suffix containing a match: it returns the first match's identity,
and leaves the bucket with a matching record of that same identity
preceded only by non-matching records. -/
theorem acquire_walk_hit (c : Cell) :
    ∀ (rest : List TileRecord) (prev : TileRecord), prev.tr_key ≠ c →
      ∀ fm, rest.find? (fun x => decide (x.tr_key = c)) = some fm →
      ∃ ret out, acquire_walk c prev rest = (some ret, out) ∧
        sameId ret fm ∧
        ∃ pre m suf, out = pre ++ m :: suf ∧
          (∀ x ∈ pre, x.tr_key ≠ c) ∧ sameId m fm := by
  intro rest
  induction rest with
  | nil => intro prev _ fm hfm; simp at hfm
  | cons cur rest ih =>
      intro prev hprev fm hfm
      by_cases hc : cur.tr_key = c
      · rw [List.find?_cons_of_pos _ (by simpa using hc)] at hfm
        injection hfm with hfm
        subst hfm
        simp only [acquire_walk]
        rw [if_pos hc]
        have hcur1 : sameId { cur with tr_hits := cur.tr_hits + 1 } cur :=
          ⟨rfl, rfl, rfl, rfl⟩
        obtain ⟨hret, hswap⟩ := prioritize_spec prev { cur with tr_hits := cur.tr_hits + 1 }
        refine ⟨_, _, rfl, sameId_trans hret hcur1, ?_⟩
        rcases hswap with ⟨hf, hl⟩ | ⟨hf, hl⟩
        · exact ⟨[_], _, rest, rfl,
            by intro x hx; simp at hx; subst hx; rw [hf.1]; exact hprev,
            sameId_trans hl hcur1⟩
        · exact ⟨[], _, _ :: rest, rfl, by intro x hx; simp at hx,
            sameId_trans hf hcur1⟩
      · rw [List.find?_cons_of_neg _ (by simpa using hc)] at hfm
        unfold acquire_walk
        rw [if_neg hc]
        have hcur1 : sameId { cur with tr_passes := cur.tr_passes + 1 } cur :=
          ⟨rfl, rfl, rfl, rfl⟩
        obtain ⟨hret, hswap⟩ := prioritize_spec prev { cur with tr_passes := cur.tr_passes + 1 }
        have hlkey : (prioritize prev { cur with tr_passes := cur.tr_passes + 1 }).2.1.tr_key ≠ c := by
          rcases hswap with ⟨hf, hl⟩ | ⟨hf, hl⟩
          · rw [hl.1]; exact hc
          · rw [hl.1]; exact hprev
        have hfkey : (prioritize prev { cur with tr_passes := cur.tr_passes + 1 }).1.tr_key ≠ c := by
          rcases hswap with ⟨hf, hl⟩ | ⟨hf, hl⟩
          · rw [hf.1]; exact hprev
          · rw [hf.1]; exact hc
        obtain ⟨ret, out, hwalk, hret2, pre, m, suf, hout, hpre, hm⟩ :=
          ih (prioritize prev { cur with tr_passes := cur.tr_passes + 1 }).2.1 hlkey fm hfm
        refine ⟨ret,
          (prioritize prev { cur with tr_passes := cur.tr_passes + 1 }).1 :: out,
          ?_, hret2,
          (prioritize prev { cur with tr_passes := cur.tr_passes + 1 }).1 :: pre,
          m, suf, ?_, ?_, hm⟩
        · dsimp only
          rw [hwalk]
        · rw [List.cons_append, hout]
        · intro x hx
          rcases List.mem_cons.mp hx with hx | hx
          · rw [hx]
            exact hfkey
          · exact hpre x hx

/-- Unfolding of `acquire_bucket` on a nonempty bucket. -/
theorem acquire_bucket_cons (c : Cell) (r0 : TileRecord) (rest : List TileRecord) :
    acquire_bucket c (r0 :: rest) =
      if r0.tr_key = c then
        (some (prioritize_self { r0 with tr_hits := r0.tr_hits + 1 }),
         prioritize_self { r0 with tr_hits := r0.tr_hits + 1 } :: rest)
      else acquire_walk c (prioritize_self { r0 with tr_passes := r0.tr_passes + 1 }) rest := rfl

/-- The full bucket walk on a bucket containing a match. -/
theorem acquire_bucket_hit (c : Cell) (live : List TileRecord) (fm : TileRecord)
    (hfm : live.find? (fun x => decide (x.tr_key = c)) = some fm) :
    ∃ ret out, acquire_bucket c live = (some ret, out) ∧
      sameId ret fm ∧
      ∃ pre m suf, out = pre ++ m :: suf ∧
        (∀ x ∈ pre, x.tr_key ≠ c) ∧ sameId m fm := by
  cases live with
  | nil => simp at hfm
  | cons r0 rest =>
      by_cases hc : r0.tr_key = c
      · rw [List.find?_cons_of_pos _ (by simpa using hc)] at hfm
        injection hfm with hfm
        subst hfm
        rw [acquire_bucket_cons, if_pos hc]
        have hs : sameId (prioritize_self { r0 with tr_hits := r0.tr_hits + 1 }) r0 :=
          sameId_trans (prioritize_self_sameId _) ⟨rfl, rfl, rfl, rfl⟩
        exact ⟨_, _, rfl, hs, [], _, rest, rfl, by intro x hx; simp at hx, hs⟩
      · rw [List.find?_cons_of_neg _ (by simpa using hc)] at hfm
        rw [acquire_bucket_cons, if_neg hc]
        have hkey : (prioritize_self { r0 with tr_passes := r0.tr_passes + 1 }).tr_key ≠ c := by
          rw [(prioritize_self_sameId _).1]
          exact hc
        exact acquire_walk_hit c rest _ hkey fm hfm

/-- `find?` of a split whose prefix has no matches finds the middle
record. -/
theorem find?_split_match (c : Cell) (pre suf : List TileRecord) (m : TileRecord)
    (hpre : ∀ x ∈ pre, x.tr_key ≠ c) (hm : m.tr_key = c) :
    (pre ++ m :: suf).find? (fun x => decide (x.tr_key = c)) = some m := by
  induction pre with
  | nil =>
      simp only [List.nil_append]
      exact List.find?_cons_of_pos _ (by simpa using hm)
  | cons a pre ih =>
      simp only [List.cons_append]
      rw [List.find?_cons_of_neg _ (by simp [hpre a (by simp)])]
      exact ih (fun x hx => hpre x (by simp [hx]))

theorem sameId_symm {a b : TileRecord} (h : sameId a b) : sameId b a :=
  ⟨h.1.symm, h.2.1.symm, h.2.2.1.symm, h.2.2.2.symm⟩

theorem getD_set_self_bucket (l : List Bucket) (i : Nat) (b : Bucket)
    (h : i < l.length) : (l.set i b).getD i default = b := by
  simp [List.getD_eq_getElem?_getD, List.getElem?_set_self, h]

/-- The bucket `hash_cell` selects for a cell. -/
def cacheBucketIndex (tc : TileCache) (c : Cell) : Nat :=
  tc.dtc_hash c % tc.dtc_distribution_size

/-- The live records (`dtc_records[b][0..count)`) of the cell's
bucket. -/
def cacheLive (tc : TileCache) (c : Cell) : List TileRecord :=
  (tc.dtc_buckets.getD (cacheBucketIndex tc c) default).b_records.take
    (tc.dtc_buckets.getD (cacheBucketIndex tc c) default).b_count

/-- The cell currently has an (un-evicted) record in its bucket. -/
def cacheHasRecord (tc : TileCache) (c : Cell) : Prop :=
  ∃ x ∈ cacheLive tc c, x.tr_key = c

/-- The cache after the hit path writes back the walked bucket. -/
def cacheHitUpdate (tc : TileCache) (c : Cell) (out : List TileRecord) : TileCache :=
  let bk := tc.dtc_buckets.getD (cacheBucketIndex tc c) default
  let bk1 : Bucket := ⟨bk.b_count, bk.b_slots, out ++ bk.b_records.drop bk.b_count⟩
  { tc with dtc_buckets := tc.dtc_buckets.set (cacheBucketIndex tc c) bk1 }

/-- One hit-path step of `cache_acquire_tile_record`: no rasterization,
the returned record carries the first match's identity, and the
updated cache still holds a record of that identity as the first
match of the same bucket. -/
theorem cache_acquire_hit_step (tc : TileCache) (c : Cell) (fm : TileRecord)
    (hr : cacheBucketIndex tc c < tc.dtc_buckets.length)
    (hfm : (cacheLive tc c).find? (fun x => decide (x.tr_key = c)) = some fm) :
    ∃ ret tc1, cache_acquire_tile_record tc c = (ret, tc1, false) ∧
      sameId ret fm ∧
      tc1.dtc_cell_width = tc.dtc_cell_width ∧
      tc1.dtc_cell_height = tc.dtc_cell_height ∧
      tc1.dtc_buckets.length = tc.dtc_buckets.length ∧
      cacheBucketIndex tc1 c = cacheBucketIndex tc c ∧
      ∃ m, (cacheLive tc1 c).find? (fun x => decide (x.tr_key = c)) = some m ∧
        sameId m fm := by
  obtain ⟨ret, out, hab, hret, pre, m, suf, hout, hpre, hm⟩ :=
    acquire_bucket_hit c (cacheLive tc c) fm hfm
  have hmkey : m.tr_key = c := by
    have hfmp : fm.tr_key = c := by
      have := List.find?_some hfm
      simpa using this
    rw [hm.1, hfmp]
  have hlenout : out.length = (cacheLive tc c).length := by
    have := acquire_bucket_length c (cacheLive tc c)
    rw [hab] at this
    exact this
  have hstep : cache_acquire_tile_record tc c = (ret, cacheHitUpdate tc c out, false) := by
    unfold cacheLive cacheBucketIndex at hab
    unfold cache_acquire_tile_record cacheHitUpdate cacheBucketIndex
    dsimp only
    rw [hab]
  refine ⟨ret, cacheHitUpdate tc c out, hstep, hret, rfl, rfl, ?_, rfl, ?_⟩
  · unfold cacheHitUpdate
    simp
  have hlive1 : cacheLive (cacheHitUpdate tc c out) c = out := by
    have hidx : cacheBucketIndex (cacheHitUpdate tc c out) c = cacheBucketIndex tc c := rfl
    unfold cacheLive
    rw [hidx]
    unfold cacheHitUpdate
    dsimp only
    rw [getD_set_self_bucket _ _ _ hr]
    dsimp only
    have hcl : (cacheLive tc c).length =
        min (tc.dtc_buckets.getD (cacheBucketIndex tc c) default).b_count
          (tc.dtc_buckets.getD (cacheBucketIndex tc c) default).b_records.length := by
      unfold cacheLive
      simp [List.length_take]
    by_cases hcase : (tc.dtc_buckets.getD (cacheBucketIndex tc c) default).b_count ≤
        (tc.dtc_buckets.getD (cacheBucketIndex tc c) default).b_records.length
    · have hleno : out.length =
          (tc.dtc_buckets.getD (cacheBucketIndex tc c) default).b_count := by omega
      rw [← hleno, List.take_left]
    · have hdropnil : (tc.dtc_buckets.getD (cacheBucketIndex tc c) default).b_records.drop
          (tc.dtc_buckets.getD (cacheBucketIndex tc c) default).b_count = [] :=
        List.drop_eq_nil_of_le (by omega)
      rw [hdropnil, List.append_nil]
      exact List.take_of_length_le (by omega)
  rw [hlive1, hout]
  exact ⟨m, find?_split_match c pre suf m hpre hmkey, hm⟩

/- ### Claim C5 -/

/-- A cell with a live record pins its bucket inside the table and is
found by the bucket walk. -/
theorem cacheHasRecord_find (tc : TileCache) (c : Cell) (h : cacheHasRecord tc c) :
    cacheBucketIndex tc c < tc.dtc_buckets.length ∧
    ∃ fm, (cacheLive tc c).find? (fun x => decide (x.tr_key = c)) = some fm := by
  constructor
  · by_contra hge
    have hnone : tc.dtc_buckets[cacheBucketIndex tc c]? = none :=
      List.getElem?_eq_none (by omega)
    have hdef : tc.dtc_buckets.getD (cacheBucketIndex tc c) default = default := by
      rw [List.getD_eq_getElem?_getD, hnone]
      rfl
    obtain ⟨x, hx, _⟩ := h
    unfold cacheLive at hx
    rw [hdef] at hx
    exact List.not_mem_nil x hx
  · have hsome : ((cacheLive tc c).find? (fun x => decide (x.tr_key = c))).isSome := by
      rw [List.find?_isSome]
      obtain ⟨x, hx, hk⟩ := h
      exact ⟨x, hx, by simpa using hk⟩
    exact Option.isSome_iff_exists.mp hsome

/-- C5: tile-cache acquire is idempotent on hits.  If the cell already
has a live record in its bucket, `cache_acquire_tile` returns its
`(image_id, xtile, ytile)` triple without invoking the rasterizer,
and a second acquire on the resulting cache returns the same triple,
again without rasterizing; moreover rasterization happens only on the
allocation (miss) path: any acquire on a cache that holds a live
record for the cell reports `rasterized = false`. -/
theorem cache_acquire_idempotent (tc : TileCache) (c : Cell)
    (h : cacheHasRecord tc c) :
    (∃ t tc1 tc2,
      cache_acquire_tile tc c = (t, tc1, false) ∧
      cache_acquire_tile tc1 c = (t, tc2, false)) ∧
    (∀ tcx : TileCache, cacheHasRecord tcx c →
      (cache_acquire_tile tcx c).2.2 = false) := by
  refine ⟨?_, ?_⟩
  swap
  · intro tcx hx
    obtain ⟨hrx, fmx, hfmx⟩ := cacheHasRecord_find tcx c hx
    obtain ⟨retx, tcy, hstepx, _⟩ := cache_acquire_hit_step tcx c fmx hrx hfmx
    unfold cache_acquire_tile
    rw [hstepx]
  obtain ⟨hr, fm, hfm⟩ := cacheHasRecord_find tc c h
  obtain ⟨ret, tc1, hstep1, hret1, hcw1, hch1, hblen1, hbidx1, m, hfm2, hm⟩ :=
    cache_acquire_hit_step tc c fm hr hfm
  have hr1 : cacheBucketIndex tc1 c < tc1.dtc_buckets.length := by
    rw [hbidx1, hblen1]
    exact hr
  obtain ⟨ret2, tc2, hstep2, hret2, _, _, _, _, _, _, _⟩ :=
    cache_acquire_hit_step tc1 c m hr1 hfm2
  have hsame : sameId ret2 ret :=
    sameId_trans (sameId_trans hret2 hm) (sameId_symm hret1)
  refine ⟨(ret.tr_image, ret.tr_cell * tc.dtc_cell_width,
    ret.tr_line * tc.dtc_cell_height), tc1, tc2, ?_, ?_⟩
  · unfold cache_acquire_tile
    rw [hstep1]
  · unfold cache_acquire_tile
    rw [hstep2]
    dsimp only
    rw [hsame.2.1, hsame.2.2.1, hsame.2.2.2, hcw1, hch1]

/-- C5 witness: a one-bucket cache already holding a record for the
default cell returns the same `(0, 0, 0)` slot twice without
rasterizing. -/
theorem cache_acquire_idempotent_witness :
    ∃ t tc1 tc2,
      cache_acquire_tile
        ⟨7, 9, 2, 8, 8, 2, 1, [⟨1, 1, [⟨1, 1, 1, 0, 0, 0, default⟩]⟩], fun _ => 0⟩
        default = (t, tc1, false) ∧
      cache_acquire_tile tc1 default = (t, tc2, false) :=
  (cache_acquire_idempotent
    ⟨7, 9, 2, 8, 8, 2, 1, [⟨1, 1, [⟨1, 1, 1, 0, 0, 0, default⟩]⟩], fun _ => 0⟩
    default ⟨⟨1, 1, 1, 0, 0, 0, default⟩, by decide, rfl⟩).1

theorem getD_set_ne_bucket (l : List Bucket) (i j : Nat) (b : Bucket) (h : i ≠ j) :
    (l.set i b).getD j default = l.getD j default := by
  simp [List.getD_eq_getElem?_getD, List.getElem?_set_ne h]

/- ### Claim C6 -/

/-- C6 counterexample: with no physical slots left and a full bucket
of 5 records, an acquire miss evicts `5 / 4 = 1` record (C integer
division — the floor), not `⌈5/4⌉ = 2` as claimed; after placing the
new record the bucket count is back to 5, whereas the claimed ceiling
eviction would leave `5 - 2 + 1 = 4`. -/
theorem cache_evict_quarter_counterexample :
    (((cache_acquire_tile
        ⟨1, 1, 2, 5, 5, 2, 1,
         [⟨5, 5, [⟨1, 1, 1, 0, 0, 1, glyphCell 1⟩, ⟨1, 1, 1, 0, 0, 2, glyphCell 2⟩,
                  ⟨1, 1, 1, 0, 0, 3, glyphCell 3⟩, ⟨1, 1, 1, 0, 0, 4, glyphCell 4⟩,
                  ⟨1, 1, 1, 0, 0, 0, glyphCell 5⟩]⟩],
         fun _ => 0⟩
        (glyphCell 99)).2.1.dtc_buckets.getD 0 default).b_count = 5) ∧
    5 - (5 + 3) / 4 + 1 = 4 ∧ (5 : Nat) ≠ 4 := by
  refine ⟨by decide, by decide, by decide⟩

/-- A two-bucket cache with exhausted physical slots and a full first
bucket, used to exercise the eviction path. -/
def evictScenarioCache : TileCache :=
  ⟨1, 1, 2, 5, 5, 2, 2,
   [⟨5, 5, [⟨1, 1, 1, 0, 0, 1, glyphCell 1⟩, ⟨1, 1, 1, 0, 0, 2, glyphCell 2⟩,
            ⟨1, 1, 1, 0, 0, 3, glyphCell 3⟩, ⟨1, 1, 1, 0, 0, 4, glyphCell 4⟩,
            ⟨1, 1, 1, 0, 0, 0, glyphCell 5⟩]⟩,
    ⟨1, 1, [⟨1, 1, 1, 0, 0, 7, glyphCell 7⟩]⟩],
   fun _ => 0⟩

/-- C6 (amended): quarter-drop eviction with floor division.  When an
allocation happens while no physical tile slots remain
(`image_next ≥ image_limit`) and the target bucket's record count has
reached its slot allocation, the count is first reduced by
`⌊count/4⌋`; the new record is then placed, leaving the bucket at
`count - ⌊count/4⌋ + 1` records (or at `count - ⌊count/4⌋` when the
drop freed nothing and the last record is overwritten instead; for a
bucket index beyond the table the C is undefined and the model leaves
the table unchanged).  Only the target bucket changes: every other
bucket, and the physical-slot cursor `image_next`, are untouched. -/
theorem cache_allocate_evicts_floor_quarter (tc : TileCache) (r : Nat) (c : Cell)
    (h1 : tc.dtc_image_limit ≤ tc.dtc_image_next)
    (h2 : (tc.dtc_buckets.getD r default).b_slots ≤
      (tc.dtc_buckets.getD r default).b_count)
    (h3 : 1 ≤ (tc.dtc_buckets.getD r default).b_count) :
    (((cache_allocate_tile tc r c).2.dtc_buckets.getD r default).b_count =
      (if (tc.dtc_buckets.getD r default).b_slots ≤
          (tc.dtc_buckets.getD r default).b_count -
            (tc.dtc_buckets.getD r default).b_count / 4 then
        (tc.dtc_buckets.getD r default).b_count -
          (tc.dtc_buckets.getD r default).b_count / 4
      else
        (tc.dtc_buckets.getD r default).b_count -
          (tc.dtc_buckets.getD r default).b_count / 4 + 1) ∨
      ¬ r < tc.dtc_buckets.length) ∧
    (∀ q, q ≠ r → (cache_allocate_tile tc r c).2.dtc_buckets.getD q default =
      tc.dtc_buckets.getD q default) ∧
    (cache_allocate_tile tc r c).2.dtc_image_next = tc.dtc_image_next := by
  have hd0 : min (tc.dtc_image_limit - tc.dtc_image_next) tc.dtc_allocation_size = 0 := by
    omega
  have hcount1 :
      (if tc.dtc_image_limit ≤ tc.dtc_image_next ∧
          (tc.dtc_buckets.getD r default).b_slots ≤
            (tc.dtc_buckets.getD r default).b_count then
        (tc.dtc_buckets.getD r default).b_count -
          (tc.dtc_buckets.getD r default).b_count / 4
      else (tc.dtc_buckets.getD r default).b_count) =
        (tc.dtc_buckets.getD r default).b_count -
          (tc.dtc_buckets.getD r default).b_count / 4 :=
    if_pos ⟨h1, h2⟩
  unfold cache_allocate_tile
  dsimp only
  rw [hcount1, hd0]
  by_cases hfull : (tc.dtc_buckets.getD r default).b_slots ≤
      (tc.dtc_buckets.getD r default).b_count -
        (tc.dtc_buckets.getD r default).b_count / 4
  · rw [if_pos hfull, if_neg (by omega)]
    by_cases hr : r < tc.dtc_buckets.length
    · refine ⟨?_, ?_, rfl⟩
      · rw [getD_set_self_bucket _ _ _ hr]
        left
        rw [if_pos hfull]
        dsimp only
        omega
      · intro q hq
        exact getD_set_ne_bucket _ _ _ _ (Ne.symm hq)
    · have hset : ∀ b : Bucket, tc.dtc_buckets.set r b = tc.dtc_buckets := by
        intro b
        exact List.set_eq_of_length_le (by omega)
      refine ⟨Or.inr hr, ?_, rfl⟩
      intro q hq
      rw [hset]
  · rw [if_neg hfull]
    by_cases hr : r < tc.dtc_buckets.length
    · refine ⟨?_, ?_, rfl⟩
      · rw [getD_set_self_bucket _ _ _ hr]
        left
        rw [if_neg hfull]
      · intro q hq
        exact getD_set_ne_bucket _ _ _ _ (Ne.symm hq)
    · have hset : ∀ b : Bucket, tc.dtc_buckets.set r b = tc.dtc_buckets := by
        intro b
        exact List.set_eq_of_length_le (by omega)
      refine ⟨Or.inr hr, ?_, rfl⟩
      intro q hq
      rw [hset]

/-- C6 witness: on `evictScenarioCache` (five records, five slots,
`image_next = image_limit`), an allocation in bucket 0 evicts
`⌊5/4⌋ = 1` record and places the new one, ending at 5 records, while
bucket 1 and `image_next` are untouched. -/
theorem cache_allocate_evicts_floor_quarter_witness :
    ((cache_allocate_tile evictScenarioCache 0 (glyphCell 99)).2.dtc_buckets.getD 0
        default).b_count = 5 ∧
    (cache_allocate_tile evictScenarioCache 0 (glyphCell 99)).2.dtc_buckets.getD 1
        default = evictScenarioCache.dtc_buckets.getD 1 default ∧
    (cache_allocate_tile evictScenarioCache 0 (glyphCell 99)).2.dtc_image_next =
      evictScenarioCache.dtc_image_next := by
  have h := cache_allocate_evicts_floor_quarter evictScenarioCache 0 (glyphCell 99)
    (by decide) (by decide) (by decide)
  refine ⟨?_, h.2.1 1 (by decide), h.2.2⟩
  rcases h.1 with hx | hx
  · rw [hx]
    decide
  · exact absurd (by decide) hx
